import Mathlib

/-!
Verification development for the deepseek-cli-rs repository (src/main.rs,
src/tools.rs): a shallow embedding of the tool-directive parser, the
search/replace patch engine, the command-result envelope, the web-search
response handling, the tool dispatcher, the stream collector and the
auto-continuation loop, together with theorems settling the specification
claims.

Strings are modelled as `List Char`.  Rust byte offsets coincide with
character offsets on ASCII text, which covers every concrete input used
here; the one place where the distinction matters (the hard-coded `+ 15`
offset in the patch-block parser) is modelled by an explicit bounds check
that reproduces the out-of-range panic of the original code.
-/

namespace DeepseekCli

/-- Coerce a Lean string literal to the `List Char` representation. -/
def str (s : String) : List Char := s.data

/-- Rust `char::is_whitespace` (the Unicode White_Space property). -/
def isWs (c : Char) : Bool :=
  c.isWhitespace || c.toNat = 0x0B || c.toNat = 0x0C || c.toNat = 0x85 ||
  c.toNat = 0xA0 || c.toNat = 0x1680 ||
  (0x2000 ≤ c.toNat && c.toNat ≤ 0x200A) ||
  c.toNat = 0x2028 || c.toNat = 0x2029 || c.toNat = 0x202F ||
  c.toNat = 0x205F || c.toNat = 0x3000

/-- Rust `str::trim`: drop leading and trailing whitespace. -/
def rustTrim (s : List Char) : List Char :=
  ((s.dropWhile isWs).reverse.dropWhile isWs).reverse

/-- Split into segments each ending with a newline character (except
possibly the last); the empty string yields no segments.  Models the
`split_inclusive('\n')` underlying Rust `str::lines`. -/
def splitInclNl : List Char → List (List Char)
  | [] => []
  | c :: rest =>
    if c = '\n' then ['\n'] :: splitInclNl rest
    else
      match splitInclNl rest with
      | [] => [[c]]
      | l :: ls => (c :: l) :: ls

/-- Remove a trailing `'\n'`, and then a trailing `'\r'` only when a
`'\n'` was removed — exactly the per-line cleanup of Rust `str::lines`. -/
def lineClean (l : List Char) : List Char :=
  if l.getLast? = some '\n' then
    let l' := l.dropLast
    if l'.getLast? = some '\r' then l'.dropLast else l'
  else l

/-- Rust `str::lines`. -/
def rustLines (s : List Char) : List (List Char) :=
  (splitInclNl s).map lineClean

/-- Rust `splitn(2, ' ')` followed by `unwrap_or("")` on both parts:
split at the first space character. -/
def splitOnceSpace : List Char → List Char × List Char
  | [] => ([], [])
  | c :: rest =>
    if c = ' ' then ([], rest)
    else
      let p := splitOnceSpace rest
      (c :: p.1, p.2)

/-- Rust `str::find(pat)`: index of the first occurrence of `pat` as a
substring (`some 0` for the empty pattern). -/
def findSub (pat : List Char) : List Char → Option Nat
  | [] => if pat.isPrefixOf ([] : List Char) then some 0 else none
  | c :: rest =>
    if pat.isPrefixOf (c :: rest) then some 0
    else (findSub pat rest).map (· + 1)

/-- Rust `str::contains(pat)`. -/
def containsSub (s pat : List Char) : Bool := (findSub pat s).isSome

/-- Recursion core of Rust `str::replace` for a nonempty pattern:
replace every leftmost, non-overlapping occurrence.  The structural
`fuel` argument (one unit per consumed character suffices) makes the
function kernel-evaluable; `replaceAllNE` instantiates it with the
input length and `replaceAllNE_cons` recovers the natural recursion. -/
def replaceAllNEGo (pat rep : List Char) : Nat → List Char → List Char
  | _, [] => []
  | 0, s => s
  | fuel + 1, c :: rest =>
    if pat ≠ [] ∧ pat.isPrefixOf (c :: rest) then
      rep ++ replaceAllNEGo pat rep fuel ((c :: rest).drop pat.length)
    else c :: replaceAllNEGo pat rep fuel rest

/-- Rust `str::replace` for a nonempty pattern. -/
def replaceAllNE (pat rep s : List Char) : List Char :=
  replaceAllNEGo pat rep s.length s

/-- Rust `str::replace`: for the empty pattern a match occurs at every
character boundary, so the replacement is interleaved everywhere. -/
def replaceAll (s pat rep : List Char) : List Char :=
  if pat = [] then rep ++ s.flatMap (fun c => c :: rep)
  else replaceAllNE pat rep s

/-- `List.intercalate` with a newline separator (Rust `join("\n")`). -/
def intercalateNl (ls : List (List Char)) : List Char :=
  List.intercalate ['\n'] ls

/-- The distinct failure sites of `apply_search_replace_handler`
(src/tools.rs): each constructor is one `bail!`/`?` site. -/
inductive PatchError where
  | missingPath : PatchError
  | missingEq : PatchError
  | missingReplace : PatchError
  | noBlocks : PatchError
  | notFound (file search : List Char) : PatchError
  | readFailed : PatchError
deriving DecidableEq

/-- Outcome of the block-parsing loop: parsed blocks, a syntax error, or
a panic (the out-of-range slice `remaining[search_start + 15..]` — the
begin marker is only 14 bytes long). -/
inductive ParseOut where
  | ok (blocks : List (List Char × List Char)) : ParseOut
  | err (e : PatchError) : ParseOut
  | panicked : ParseOut
deriving DecidableEq

/-- Recursion core of the
`while let Some(search_start) = remaining.find("<<<<<<< SEARCH")` loop
of `apply_search_replace_handler` (src/tools.rs lines 58-75), one fuel
unit per parsed block (each block consumes at least 15 characters).
The code advances by `search_start + 15` although the begin marker is
only 14 bytes long; when fewer than 15 bytes remain from the marker
start, the slice `&remaining[search_start + 15..]` panics, modelled by
the explicit bounds check. -/
def parseBlocksGo : Nat → List Char → ParseOut
  | 0, _ => ParseOut.ok []
  | fuel + 1, remaining =>
    match findSub (str "<<<<<<< SEARCH") remaining with
    | none => ParseOut.ok []
    | some i =>
      if i + 15 ≤ remaining.length then
        match findSub (str "=======") (remaining.drop (i + 15)) with
        | none => ParseOut.err PatchError.missingEq
        | some j =>
          match findSub (str ">>>>>>> REPLACE") ((remaining.drop (i + 15)).drop (j + 7)) with
          | none => ParseOut.err PatchError.missingReplace
          | some k =>
            match parseBlocksGo fuel (((remaining.drop (i + 15)).drop (j + 7)).drop (k + 15)) with
            | ParseOut.ok bs =>
              ParseOut.ok ((rustTrim ((remaining.drop (i + 15)).take j),
                            rustTrim (((remaining.drop (i + 15)).drop (j + 7)).take k)) :: bs)
            | e => e
      else ParseOut.panicked

/-- The block-parsing loop, with enough fuel for its input. -/
def parseBlocks (remaining : List Char) : ParseOut :=
  parseBlocksGo remaining.length remaining

/-- The application loop of `apply_search_replace_handler` (src/tools.rs
lines 82-87): blocks are applied in parsed order against the current
in-memory content; a block whose search text is absent fails at once. -/
def applyBlocks (file : List Char) : List Char → List (List Char × List Char) →
    Except PatchError (List Char)
  | content, [] => Except.ok content
  | content, (s, r) :: bs =>
    if containsSub content s then applyBlocks file (replaceAll content s r) bs
    else Except.error (PatchError.notFound file s)

/-- The filesystem as seen by the patch engine: path → file content. -/
def Disk : Type := List Char → Option (List Char)

/-- Effect of one `fs::write`. -/
def diskWrite (d : Disk) (p c : List Char) : Disk :=
  fun q => if q = p then some c else d q

/-- The success message `format!("Applied {} block(s) to {}", ...)`. -/
def appliedMsg (n : Nat) (fp : List Char) : List Char :=
  str "Applied " ++ (toString n).data ++ str " block(s) to " ++ fp

/-- Overall outcome of one `apply_search_replace` call. -/
inductive PatchOut where
  | ok (msg : List Char) : PatchOut
  | err (e : PatchError) : PatchOut
  | panicked : PatchOut
deriving DecidableEq

/-- `apply_search_replace_handler` (src/tools.rs lines 48-94) as a
function of the argument and the disk.  It returns the outcome, the disk
after the call, and the list of write events performed (the code calls
`fs::write` exactly once, after every block succeeded). -/
def applySearchReplace (d : Disk) (arg : List Char) :
    PatchOut × Disk × List (List Char × List Char) :=
  match rustLines arg with
  | [] => (PatchOut.err PatchError.missingPath, d, [])
  | fp :: rest =>
    match parseBlocks (intercalateNl rest) with
    | ParseOut.panicked => (PatchOut.panicked, d, [])
    | ParseOut.err e => (PatchOut.err e, d, [])
    | ParseOut.ok blocks =>
      if blocks = [] then (PatchOut.err PatchError.noBlocks, d, [])
      else
        match d fp with
        | none => (PatchOut.err PatchError.readFailed, d, [])
        | some content =>
          match applyBlocks fp content blocks with
          | Except.error e => (PatchOut.err e, d, [])
          | Except.ok final =>
            (PatchOut.ok (appliedMsg blocks.length fp), diskWrite d fp final,
             [(fp, final)])

/-- The result envelope of `run_command_handler` (src/tools.rs lines
107-125), as a function of the exit status (`none` when unavailable,
e.g. killed by a signal) and the two lossily-decoded output streams. -/
def commandEnvelope (code : Option Int) (stdout stderr : List Char) : List Char :=
  let base := str "EXIT_CODE:" ++ (toString (code.getD (-1))).data ++ str "\n"
  let r1 := if stdout = [] then base else base ++ str "stdout:\n" ++ stdout
  let r2 :=
    if stderr = [] then r1
    else r1 ++ (if stdout = [] then [] else str "\n\n") ++ str "stderr:\n" ++ stderr
  if stdout = [] ∧ stderr = [] then
    r2 ++ str "Command executed successfully (no output)"
  else r2

/-- The failure modes of `search_web_handler` past the network layer. -/
inductive SearchError where
  | blocked : SearchError
  | httpError (status : Nat) : SearchError
deriving DecidableEq

/-- Response handling of `search_web_handler` (src/tools.rs lines
176-227), as a function of the HTTP status, the body text, and the
result-block extraction performed by the HTML scraper (kept abstract:
`extract` returns the formatted result entries). -/
def handleSearchResponse (extract : List Char → List (List Char))
    (status : Nat) (html : List Char) : Except SearchError (List Char) :=
  if 200 ≤ status ∧ status < 300 then
    let results := extract html
    if results = [] then
      if containsSub html (str "No results") ||
          containsSub html (str "no results found") then
        Except.ok (str "No results found for the query.")
      else
        Except.ok (str "No results could be extracted from the search page. The page structure may have changed.")
    else Except.ok (intercalateNl results)
  else
    let lower := html.map Char.toLower
    if containsSub lower (str "captcha") ||
        containsSub lower (str "unusual traffic") ||
        containsSub lower (str "blocked") then
      Except.error SearchError.blocked
    else Except.error (SearchError.httpError status)

/-- A line opens a tool invocation when its trimmed form starts with the
marker (`lines[i].trim().strip_prefix("TOOL:")` in src/main.rs). -/
def isToolMarker (l : List Char) : Bool :=
  (str "TOOL:").isPrefixOf (rustTrim l)

/-- Recursion core of the tool-directive parsing loop of
`handle_tool_calls` (src/main.rs lines 259-291), over the line list of
the message; one fuel unit per consumed line suffices. -/
def parseLinesGo : Nat → List (List Char) → List (List Char × List Char)
  | _, [] => []
  | 0, _ => []
  | fuel + 1, l :: rest =>
    if isToolMarker l then
      let np := splitOnceSpace (rustTrim ((rustTrim l).drop 5))
      let body := intercalateNl (rest.takeWhile (fun l2 => ! isToolMarker l2))
      let fullArg :=
        if body = [] then np.2
        else if np.2 = [] then body
        else np.2 ++ '\n' :: body
      (np.1, fullArg) :: parseLinesGo fuel (rest.dropWhile (fun l2 => ! isToolMarker l2))
    else parseLinesGo fuel rest

/-- The tool-directive parsing loop, with enough fuel for its input. -/
def parseLines (ls : List (List Char)) : List (List Char × List Char) :=
  parseLinesGo ls.length ls

/-- The invocation list extracted from one assistant message's text. -/
def parseInvocations (content : List Char) : List (List Char × List Char) :=
  parseLines (rustLines content)

/-- The keys of the `TOOLS` registry (src/tools.rs lines 230-289). -/
def toolNames : List (List Char) :=
  [str "list_files", str "read_file", str "create_directory",
   str "apply_search_replace", str "run_command", str "write_file",
   str "search_web", str "fetch_url"]

/-- `execute_tool` (src/tools.rs lines 322-327): registry lookup, the
handlers' own behaviour kept abstract as `handlers`. -/
def execute_tool (handlers : List Char → List Char → Except (List Char) (List Char))
    (name arg : List Char) : Except (List Char) (List Char) :=
  if name ∈ toolNames then handlers name arg
  else Except.error (str "Unknown tool: " ++ name)

/-- The per-invocation result text pushed by the dispatch loop of
`handle_tool_calls` (src/main.rs lines 298-336): success and failure are
both recorded as labeled text, never raised. -/
def toolResultText (handlers : List Char → List Char → Except (List Char) (List Char))
    (inv : List Char × List Char) : List Char :=
  match execute_tool handlers inv.1 inv.2 with
  | Except.ok output => str "TOOL RESULT for " ++ inv.1 ++ str ":\n" ++ output
  | Except.error e => str "TOOL " ++ inv.1 ++ str " failed: " ++ e

/-- The dispatch loop: one result per invocation, strictly in parsed
order. -/
def collectResults (handlers : List Char → List Char → Except (List Char) (List Char))
    (invs : List (List Char × List Char)) : List (List Char) :=
  invs.map (toolResultText handlers)

/-- The synthetic follow-up prompt (src/main.rs line 338). -/
def nextPrompt (results : List (List Char)) : List Char :=
  List.intercalate (str "\n\n") results ++
    str "\n\nContinue with the next step or provide the final answer."

/-- One event observed by the `tokio::select!` loop of `handle_stream`
(src/main.rs lines 24-66): a tagged chunk, a chunk-level error
(propagated by `chunk?`), or the cancellation signal winning the race.
The end of the event list models the stream returning `None`. -/
inductive StreamEvent where
  | thinkingChunk (s : List Char) : StreamEvent
  | contentChunk (s : List Char) : StreamEvent
  | messageChunk (id : Option Int) (content : List Char) : StreamEvent
  | chunkError : StreamEvent
  | ctrlC : StreamEvent
deriving DecidableEq

/-- Events that the stream loop simply consumes and keeps looping on. -/
def StreamEvent.isChunk : StreamEvent → Bool
  | StreamEvent.thinkingChunk _ => true
  | StreamEvent.contentChunk _ => true
  | StreamEvent.messageChunk _ _ => true
  | StreamEvent.chunkError => false
  | StreamEvent.ctrlC => false

/-- A final assistant message (`Message`): id and accumulated text. -/
structure Msg where
  id : Option Int
  content : List Char
deriving DecidableEq

/-- Result of `handle_stream`: `completed om` is `Ok(om)` at the end of
the stream, `interrupted` is the `Ok(None)` early return when the
cancellation signal wins, `failed` is a propagated chunk error. -/
inductive StreamResult where
  | completed (m : Option Msg) : StreamResult
  | interrupted : StreamResult
  | failed : StreamResult
deriving DecidableEq

/-- `handle_stream` (src/main.rs lines 16-68) over an event
interleaving; `acc` is the `final_message` accumulator. -/
def handleStream : List StreamEvent → Option Msg → StreamResult
  | [], acc => StreamResult.completed acc
  | e :: rest, acc =>
    match e with
    | StreamEvent.ctrlC => StreamResult.interrupted
    | StreamEvent.chunkError => StreamResult.failed
    | StreamEvent.messageChunk i c => handleStream rest (some (Msg.mk i c))
    | StreamEvent.thinkingChunk _ => handleStream rest acc
    | StreamEvent.contentChunk _ => handleStream rest acc

/-- How `run_chat` updates the thread pointer from a stream result
(src/main.rs lines 208-213 and 346-352): only a fully received final
message commits. -/
def updateParent (p : Option Int) (r : StreamResult) : Option Int :=
  match r with
  | StreamResult.completed (some m) => m.id
  | _ => p

/-- How the inner loop of `run_chat` ends. -/
inductive InnerOutcome where
  | finished : InnerOutcome
  | interruptedDuringReprompt : InnerOutcome
  | interruptedAfterTools : InnerOutcome
  | starved : InnerOutcome
deriving DecidableEq

/-- The inner auto-continuation loop of `run_chat` (src/main.rs lines
215-253) driven by an oracle list of stream results for the successive
synthetic follow-ups (`none` = stream interrupted, `some m` = next
assistant text).  Returns how many times `handle_tool_calls` executed a
nonempty invocation list, and how the loop ended; `starved` marks
exhaustion of the oracle (the real code would still be awaiting the
network).  There is no iteration counter, bound, or warning in the
source. -/
def innerLoop : List Char → List (Option (List Char)) → Nat × InnerOutcome
  | msg, [] =>
    if rustTrim msg = [] then (0, InnerOutcome.starved)
    else if parseInvocations msg = [] then (0, InnerOutcome.finished)
    else (0, InnerOutcome.starved)
  | msg, r :: rs =>
    if rustTrim msg = [] then
      match r with
      | none => (0, InnerOutcome.interruptedDuringReprompt)
      | some m => innerLoop m rs
    else if parseInvocations msg = [] then (0, InnerOutcome.finished)
    else
      match r with
      | none => (1, InnerOutcome.interruptedAfterTools)
      | some m =>
        let p := innerLoop m rs
        (p.1 + 1, p.2)

/-- The bound claimed by the specification: some fixed maximum number of
auto-continuation iterations valid for every model behaviour. -/
def InnerLoopBounded : Prop :=
  ∃ N, ∀ msg rs, (innerLoop msg rs).1 ≤ N

/-- Example disk: one file `f` with content `a a a`. -/
def diskA : Disk := fun p => if p = str "f" then some (str "a a a") else none

/-- Example disk: one file `f` with content `ab\ncd`. -/
def diskB : Disk := fun p => if p = str "f" then some (str "ab\ncd") else none

/-- Example disk: one file `f` with content `hello world`. -/
def diskC : Disk := fun p => if p = str "f" then some (str "hello world") else none

/-- An assistant message consisting of one tool invocation. -/
def toolMsg : List Char := str "TOOL: run_command ls"

/-- An assistant message with no tool invocation. -/
def plainMsg : List Char := str "done"

theorem isPrefixOf_iff (l₁ l₂ : List Char) : l₁.isPrefixOf l₂ = true ↔ l₁ <+: l₂ :=
  List.isPrefixOf_iff_prefix

theorem dropWhile_length_le (p : List Char → Bool) (l : List (List Char)) :
    (l.dropWhile p).length ≤ l.length := by
  induction l with
  | nil => simp
  | cons c rest ih =>
    rw [List.dropWhile_cons]
    by_cases h : p c = true <;> simp [h] <;> omega

theorem replaceAllNEGo_fuel (pat rep : List Char) :
    ∀ f1 f2 s, s.length ≤ f1 → s.length ≤ f2 →
      replaceAllNEGo pat rep f1 s = replaceAllNEGo pat rep f2 s := by
  intro f1
  induction f1 with
  | zero =>
    intro f2 s h1 _
    have : s = [] := List.eq_nil_of_length_eq_zero (Nat.le_zero.mp h1)
    subst this
    cases f2 <;> rfl
  | succ f ih =>
    intro f2 s h1 h2
    cases s with
    | nil => cases f2 <;> rfl
    | cons c rest =>
      have hlen : (c :: rest).length = rest.length + 1 := rfl
      cases f2 with
      | zero => omega
      | succ g =>
        by_cases hc : pat ≠ [] ∧ pat.isPrefixOf (c :: rest)
        · have hpos : 0 < pat.length := List.length_pos.mpr hc.1
          simp only [replaceAllNEGo, if_pos hc]
          have hd : ((c :: rest).drop pat.length).length ≤ f := by
            simp only [List.length_drop, List.length_cons]
            omega
          have hd2 : ((c :: rest).drop pat.length).length ≤ g := by
            simp only [List.length_drop, List.length_cons]
            omega
          rw [ih g _ hd hd2]
        · simp only [replaceAllNEGo, if_neg hc]
          have hd : rest.length ≤ f := by omega
          have hd2 : rest.length ≤ g := by omega
          rw [ih g _ hd hd2]

theorem replaceAllNE_nil (pat rep : List Char) : replaceAllNE pat rep [] = [] := rfl

/-- The natural recursion of `replaceAllNE`: at a match emit the
replacement and continue past the matched pattern, otherwise keep the
character and continue one position later. -/
theorem replaceAllNE_cons (pat rep : List Char) (c : Char) (rest : List Char) :
    replaceAllNE pat rep (c :: rest) =
      if pat ≠ [] ∧ pat.isPrefixOf (c :: rest) then
        rep ++ replaceAllNE pat rep ((c :: rest).drop pat.length)
      else c :: replaceAllNE pat rep rest := by
  by_cases hc : pat ≠ [] ∧ pat.isPrefixOf (c :: rest)
  · have hpos : 0 < pat.length := List.length_pos.mpr hc.1
    simp only [replaceAllNE, replaceAllNEGo, List.length_cons, if_pos hc]
    congr 1
    apply replaceAllNEGo_fuel
    · simp only [List.length_drop, List.length_cons]; omega
    · exact Nat.le_refl _
  · simp only [replaceAllNE, replaceAllNEGo, List.length_cons, if_neg hc]

theorem parseLinesGo_fuel :
    ∀ f1 f2 ls, ls.length ≤ f1 → ls.length ≤ f2 →
      parseLinesGo f1 ls = parseLinesGo f2 ls := by
  intro f1
  induction f1 with
  | zero =>
    intro f2 ls h1 _
    have : ls = [] := List.eq_nil_of_length_eq_zero (Nat.le_zero.mp h1)
    subst this
    cases f2 <;> rfl
  | succ f ih =>
    intro f2 ls h1 h2
    cases ls with
    | nil => cases f2 <;> rfl
    | cons l rest =>
      cases f2 with
      | zero => simp at h2
      | succ g =>
        by_cases hm : isToolMarker l
        · simp only [parseLinesGo, if_pos hm]
          have hd : (rest.dropWhile (fun l2 => ! isToolMarker l2)).length ≤ f := by
            have := dropWhile_length_le (fun l2 => ! isToolMarker l2) rest
            simp only [List.length_cons] at h1
            omega
          have hd2 : (rest.dropWhile (fun l2 => ! isToolMarker l2)).length ≤ g := by
            have := dropWhile_length_le (fun l2 => ! isToolMarker l2) rest
            simp only [List.length_cons] at h2
            omega
          rw [ih g _ hd hd2]
        · simp only [parseLinesGo, if_neg hm]
          simp only [List.length_cons] at h1 h2
          exact ih g _ (by omega) (by omega)

theorem parseLines_nil : parseLines [] = [] := rfl

/-- The natural recursion of `parseLines`: a marker line opens an
invocation whose body runs to the next marker line, any other line is
skipped. -/
theorem parseLines_cons (l : List Char) (rest : List (List Char)) :
    parseLines (l :: rest) =
      if isToolMarker l then
        (let np := splitOnceSpace (rustTrim ((rustTrim l).drop 5))
         let body := intercalateNl (rest.takeWhile (fun l2 => ! isToolMarker l2))
         let fullArg :=
           if body = [] then np.2
           else if np.2 = [] then body
           else np.2 ++ '\n' :: body
         (np.1, fullArg)) ::
          parseLines (rest.dropWhile (fun l2 => ! isToolMarker l2))
      else parseLines rest := by
  by_cases hm : isToolMarker l
  · simp only [parseLines, List.length_cons, parseLinesGo, if_pos hm]
    congr 1
    exact parseLinesGo_fuel _ _ _ (dropWhile_length_le _ _) (Nat.le_refl _)
  · simp only [parseLines, List.length_cons, parseLinesGo, if_neg hm]

theorem dropWhile_isWs_of_head (l : List Char) (c : Char)
    (h : l.head? = some c) (hw : isWs c = false) : l.dropWhile isWs = l := by
  cases l with
  | nil => simp at h
  | cons a as =>
    have : a = c := by simpa using h
    subst this
    simp [List.dropWhile_cons, hw]

theorem rustTrim_eq_self (l : List Char) (c₁ c₂ : Char)
    (h₁ : l.head? = some c₁) (hw₁ : isWs c₁ = false)
    (h₂ : l.getLast? = some c₂) (hw₂ : isWs c₂ = false) : rustTrim l = l := by
  unfold rustTrim
  rw [dropWhile_isWs_of_head l c₁ h₁ hw₁,
      dropWhile_isWs_of_head l.reverse c₂ (by rw [List.head?_reverse]; exact h₂) hw₂,
      List.reverse_reverse]

theorem rustTrim_cons_ws (c : Char) (l : List Char) (h : isWs c = true) :
    rustTrim (c :: l) = rustTrim l := by
  simp [rustTrim, List.dropWhile_cons, h]

theorem splitOnceSpace_append (name frag : List Char) (h : ∀ c ∈ name, c ≠ ' ') :
    splitOnceSpace (name ++ ' ' :: frag) = (name, frag) := by
  induction name with
  | nil => simp [splitOnceSpace]
  | cons a as ih =>
    have ha : ¬ a = ' ' := h a (by simp)
    simp only [List.cons_append, splitOnceSpace, if_neg ha, List.append_eq]
    rw [ih (fun c hc => h c (by simp [hc]))]

theorem splitOnceSpace_no_space (name : List Char) (h : ∀ c ∈ name, c ≠ ' ') :
    splitOnceSpace name = (name, []) := by
  induction name with
  | nil => rfl
  | cons a as ih =>
    have ha : ¬ a = ' ' := h a (by simp)
    simp only [splitOnceSpace, if_neg ha]
    rw [ih (fun c hc => h c (by simp [hc]))]

theorem findSub_nil_of_ne (pat : List Char) (h : pat ≠ []) : findSub pat [] = none := by
  cases pat with
  | nil => exact absurd rfl h
  | cons a as => simp [findSub, List.isPrefixOf]

/-- The global-substitution recurrence of `str::replace`: at the first
occurrence (position `i`), the pattern is replaced and substitution
continues past the matched span — so every later occurrence is replaced
as well, not only the first. -/
theorem replaceAll_findSub_some (pat rep : List Char) :
    ∀ (s : List Char) (i : Nat), pat ≠ [] → findSub pat s = some i →
      replaceAll s pat rep =
        s.take i ++ rep ++ replaceAll (s.drop (i + pat.length)) pat rep := by
  intro s
  induction s with
  | nil =>
    intro i hp h
    rw [findSub_nil_of_ne pat hp] at h
    exact absurd h (by simp)
  | cons c rest ih =>
    intro i hp h
    rw [findSub] at h
    by_cases hpre : pat.isPrefixOf (c :: rest)
    · rw [if_pos hpre] at h
      have hi : i = 0 := by simpa using h.symm
      subst hi
      simp only [List.take_zero, List.nil_append, Nat.zero_add]
      rw [replaceAll, if_neg hp, replaceAllNE_cons, if_pos ⟨hp, hpre⟩,
          replaceAll, if_neg hp]
    · rw [if_neg hpre] at h
      obtain ⟨i0, hi0, hieq⟩ := Option.map_eq_some'.mp h
      subst hieq
      rw [replaceAll, if_neg hp, replaceAllNE_cons,
          if_neg (fun hand => hpre hand.2)]
      have ihr := ih i0 hp hi0
      rw [replaceAll, if_neg hp] at ihr
      rw [ihr]
      have hd : i0 + 1 + pat.length = (i0 + pat.length) + 1 := by omega
      rw [List.take_succ_cons, hd, List.drop_succ_cons]
      simp [replaceAll, if_neg hp]

/-- When the pattern does not occur, `str::replace` is the identity. -/
theorem replaceAll_findSub_none (pat rep : List Char) :
    ∀ s : List Char, pat ≠ [] → findSub pat s = none → replaceAll s pat rep = s := by
  intro s
  induction s with
  | nil => intro hp _; rw [replaceAll, if_neg hp]; rfl
  | cons c rest ih =>
    intro hp h
    rw [findSub] at h
    by_cases hpre : pat.isPrefixOf (c :: rest)
    · rw [if_pos hpre] at h; exact absurd h (by simp)
    · rw [if_neg hpre] at h
      have hr : findSub pat rest = none := by
        cases hfr : findSub pat rest with
        | none => rfl
        | some v => rw [hfr] at h; exact absurd h (by simp)
      have ihr := ih hp hr
      rw [replaceAll, if_neg hp] at ihr ⊢
      rw [replaceAllNE_cons, if_neg (fun hand => hpre hand.2), ihr]

theorem takeWhile_no_marker (bls : List (List Char))
    (hb : ∀ b ∈ bls, isToolMarker b = false) :
    bls.takeWhile (fun l2 => ! isToolMarker l2) = bls :=
  List.takeWhile_eq_self_iff.mpr (fun x hx => by simp [hb x hx])

theorem dropWhile_no_marker (bls : List (List Char))
    (hb : ∀ b ∈ bls, isToolMarker b = false) :
    bls.dropWhile (fun l2 => ! isToolMarker l2) = [] :=
  List.dropWhile_eq_nil_iff.mpr (fun x hx => by simp [hb x hx])

/-- Parsing a marker line `TOOL: <name> <frag>` followed by body lines
that contain no further marker: the invocation's name and fragment come
from splitting at the first space character (`splitn(2, ' ')` — the
name may contain non-space whitespace such as tabs), the body is the
newline-join of the following lines, and the argument is the fragment
alone when the body is empty, else fragment and body joined by one
newline. -/
theorem parseLines_marker_frag (name frag : List Char) (bls : List (List Char))
    (hname : name ≠ [])
    (hhead : ∀ c, name.head? = some c → isWs c = false)
    (hnospace : ∀ c ∈ name, c ≠ ' ')
    (hfragne : frag ≠ [])
    (hfraglast : ∀ c, frag.getLast? = some c → isWs c = false)
    (hb : ∀ b ∈ bls, isToolMarker b = false) :
    parseLines ((str "TOOL: " ++ name ++ ' ' :: frag) :: bls) =
      [(name, if intercalateNl bls = [] then frag
              else frag ++ '\n' :: intercalateNl bls)] := by
  obtain ⟨c₂, hc₂⟩ := Option.isSome_iff_exists.mp (List.getLast?_isSome.mpr hfragne)
  have hw₂ : isWs c₂ = false := hfraglast c₂ hc₂
  have hYlast : (name ++ ' ' :: frag).getLast? = some c₂ := by
    rw [show name ++ ' ' :: frag = (name ++ [' ']) ++ frag by simp,
        List.getLast?_append_of_ne_nil _ hfragne]
    exact hc₂
  have hL5 : str "TOOL: " ++ name ++ ' ' :: frag =
      str "TOOL:" ++ (' ' :: (name ++ ' ' :: frag)) := by
    rw [show str "TOOL: " = str "TOOL:" ++ [' '] from rfl]
    simp
  have hLlast : (str "TOOL: " ++ name ++ ' ' :: frag).getLast? = some c₂ := by
    rw [List.append_assoc, List.getLast?_append_of_ne_nil _ (by simp)]
    exact hYlast
  obtain ⟨n₀, name', rfl⟩ : ∃ n₀ name', name = n₀ :: name' := by
    cases name with
    | nil => exact absurd rfl hname
    | cons a as => exact ⟨a, as, rfl⟩
  have hn₀ : isWs n₀ = false := hhead n₀ rfl
  have hLhead : (str "TOOL: " ++ (n₀ :: name') ++ ' ' :: frag).head? = some 'T' := rfl
  have hLtrim : rustTrim (str "TOOL: " ++ (n₀ :: name') ++ ' ' :: frag) =
      str "TOOL: " ++ (n₀ :: name') ++ ' ' :: frag :=
    rustTrim_eq_self _ 'T' c₂ hLhead (by decide) hLlast hw₂
  have hmarker : isToolMarker (str "TOOL: " ++ (n₀ :: name') ++ ' ' :: frag) = true := by
    unfold isToolMarker
    rw [hLtrim]
    apply (isPrefixOf_iff _ _).mpr
    rw [hL5]
    exact List.prefix_append _ _
  have hYhead : ((n₀ :: name') ++ ' ' :: frag).head? = some n₀ := rfl
  have hYtrim : rustTrim ((n₀ :: name') ++ ' ' :: frag) = (n₀ :: name') ++ ' ' :: frag :=
    rustTrim_eq_self _ n₀ c₂ hYhead hn₀ hYlast hw₂
  have htool : rustTrim ((rustTrim (str "TOOL: " ++ (n₀ :: name') ++ ' ' :: frag)).drop 5) =
      (n₀ :: name') ++ ' ' :: frag := by
    rw [hLtrim, hL5, show (5 : Nat) = (str "TOOL:").length from rfl, List.drop_left,
        rustTrim_cons_ws _ _ (by decide), hYtrim]
  have hsplit : splitOnceSpace ((n₀ :: name') ++ ' ' :: frag) = (n₀ :: name', frag) :=
    splitOnceSpace_append _ _ hnospace
  rw [parseLines_cons, if_pos hmarker]
  simp only [htool, hsplit, takeWhile_no_marker bls hb, dropWhile_no_marker bls hb,
    parseLines_nil]
  by_cases hbody : intercalateNl bls = []
  · simp [hbody]
  · simp [hbody, hfragne]

/-- Parsing a marker line `TOOL: <name>` with no fragment (no space
character after the name — the name itself may contain non-space
whitespace): the argument is the body alone, with no leading blank
line. -/
theorem parseLines_marker_nofrag (name : List Char) (bls : List (List Char))
    (hname : name ≠ [])
    (hhead : ∀ c, name.head? = some c → isWs c = false)
    (hlast : ∀ c, name.getLast? = some c → isWs c = false)
    (hnospace : ∀ c ∈ name, c ≠ ' ')
    (hb : ∀ b ∈ bls, isToolMarker b = false) :
    parseLines ((str "TOOL: " ++ name) :: bls) = [(name, intercalateNl bls)] := by
  obtain ⟨c₂, hc₂⟩ := Option.isSome_iff_exists.mp (List.getLast?_isSome.mpr hname)
  have hw₂ : isWs c₂ = false := hlast c₂ hc₂
  have hL5 : str "TOOL: " ++ name = str "TOOL:" ++ (' ' :: name) := by
    rw [show str "TOOL: " = str "TOOL:" ++ [' '] from rfl]
    simp
  have hLlast : (str "TOOL: " ++ name).getLast? = some c₂ := by
    rw [List.getLast?_append_of_ne_nil _ hname]
    exact hc₂
  obtain ⟨n₀, name', rfl⟩ : ∃ n₀ name', name = n₀ :: name' := by
    cases name with
    | nil => exact absurd rfl hname
    | cons a as => exact ⟨a, as, rfl⟩
  have hn₀ : isWs n₀ = false := hhead n₀ rfl
  have hLhead : (str "TOOL: " ++ (n₀ :: name')).head? = some 'T' := rfl
  have hLtrim : rustTrim (str "TOOL: " ++ (n₀ :: name')) = str "TOOL: " ++ (n₀ :: name') :=
    rustTrim_eq_self _ 'T' c₂ hLhead (by decide) hLlast hw₂
  have hmarker : isToolMarker (str "TOOL: " ++ (n₀ :: name')) = true := by
    unfold isToolMarker
    rw [hLtrim]
    apply (isPrefixOf_iff _ _).mpr
    rw [hL5]
    exact List.prefix_append _ _
  have hYlast : (n₀ :: name').getLast? = some c₂ := hc₂
  have hYtrim : rustTrim (n₀ :: name') = n₀ :: name' :=
    rustTrim_eq_self _ n₀ c₂ rfl hn₀ hYlast hw₂
  have htool : rustTrim ((rustTrim (str "TOOL: " ++ (n₀ :: name'))).drop 5) =
      n₀ :: name' := by
    rw [hLtrim, hL5, show (5 : Nat) = (str "TOOL:").length from rfl, List.drop_left,
        rustTrim_cons_ws _ _ (by decide), hYtrim]
  have hsplit : splitOnceSpace (n₀ :: name') = (n₀ :: name', []) :=
    splitOnceSpace_no_space _ hnospace
  rw [parseLines_cons, if_pos hmarker]
  simp only [htool, hsplit, takeWhile_no_marker bls hb, dropWhile_no_marker bls hb,
    parseLines_nil]
  by_cases hbody : intercalateNl bls = []
  · simp [hbody]
  · simp [hbody]

theorem parseLines_no_marker (ls : List (List Char))
    (h : ∀ l ∈ ls, isToolMarker l = false) : parseLines ls = [] := by
  induction ls with
  | nil => exact parseLines_nil
  | cons l rest ih =>
    rw [parseLines_cons, if_neg (by simp [h l (by simp)])]
    exact ih (fun x hx => h x (by simp [hx]))

/-- Claim C2: a block whose search text is absent from the current
in-memory content fails the whole call with a not-found error naming the
file and the search text, and no write happens — the disk is left at its
pre-call state even though earlier blocks were already applied in
memory; when every block succeeds the file is written exactly once,
after all blocks, and the success message reports the block count. -/
theorem patch_failure_leaves_disk_unchanged :
    (∀ (file content s r : List Char) (bs : List (List Char × List Char)),
        containsSub content s = false →
        applyBlocks file content ((s, r) :: bs) =
          Except.error (PatchError.notFound file s)) ∧
    (∀ (file content s r : List Char) (bs : List (List Char × List Char)),
        containsSub content s = true →
        applyBlocks file content ((s, r) :: bs) =
          applyBlocks file (replaceAll content s r) bs) ∧
    (∀ (d : Disk) (arg fp : List Char) (rest : List (List Char))
        (blocks : List (List Char × List Char)) (content : List Char) (e : PatchError),
        rustLines arg = fp :: rest →
        parseBlocks (intercalateNl rest) = ParseOut.ok blocks →
        blocks ≠ [] →
        d fp = some content →
        applyBlocks fp content blocks = Except.error e →
        applySearchReplace d arg = (PatchOut.err e, d, [])) ∧
    (∀ (d : Disk) (arg fp : List Char) (rest : List (List Char))
        (blocks : List (List Char × List Char)) (content final : List Char),
        rustLines arg = fp :: rest →
        parseBlocks (intercalateNl rest) = ParseOut.ok blocks →
        blocks ≠ [] →
        d fp = some content →
        applyBlocks fp content blocks = Except.ok final →
        applySearchReplace d arg =
          (PatchOut.ok (appliedMsg blocks.length fp), diskWrite d fp final,
           [(fp, final)])) := by
  refine ⟨?_, ?_, ?_, ?_⟩
  · intro file content s r bs h
    simp [applyBlocks, h]
  · intro file content s r bs h
    simp [applyBlocks, h]
  · intro d arg fp rest blocks content e h1 h2 h3 h4 h5
    simp [applySearchReplace, h1, h2, h3, h4, h5]
  · intro d arg fp rest blocks content final h1 h2 h3 h4 h5
    simp [applySearchReplace, h1, h2, h3, h4, h5]

/-- Witness for C2 at the specification's multi-block example: on file
`f` containing `hello world`, a call whose first block rewrites `world`
to `X` and whose second block searches for the absent text `absent`
fails with the not-found error and leaves the disk unchanged with no
write; the single-block call succeeds with one write and the counted
success message. -/
theorem patch_failure_leaves_disk_unchanged_witness :
    applySearchReplace diskC
        (str "f\n<<<<<<< SEARCH\nworld\n=======\nX\n>>>>>>> REPLACE\n<<<<<<< SEARCH\nabsent\n=======\nY\n>>>>>>> REPLACE") =
      (PatchOut.err (PatchError.notFound (str "f") (str "absent")), diskC, []) ∧
    applySearchReplace diskC
        (str "f\n<<<<<<< SEARCH\nworld\n=======\nX\n>>>>>>> REPLACE") =
      (PatchOut.ok (appliedMsg 1 (str "f")),
       diskWrite diskC (str "f") (str "hello X"), [(str "f", str "hello X")]) := by
  constructor
  · exact patch_failure_leaves_disk_unchanged.2.2.1 diskC _ _ _
      [(str "world", str "X"), (str "absent", str "Y")] (str "hello world") _
      rfl rfl (by decide) rfl rfl
  · exact patch_failure_leaves_disk_unchanged.2.2.2 diskC _ _ _
      [(str "world", str "X")] (str "hello world") (str "hello X")
      rfl rfl (by decide) rfl rfl

/-- Claim C3: applying a parsed edit block replaces every occurrence of
the search text (global substitution, not only the first), and blocks
are applied strictly in parsed order against the content as modified by
the earlier blocks; in particular `a a a` with block {a → b} yields
`b b b`, and `ab\ncd` with block {ab → xy} yields `xy\ncd` with
reported count 1. -/
theorem patch_replaces_all_occurrences :
    (∀ (s pat rep : List Char) (i : Nat), pat ≠ [] → findSub pat s = some i →
        replaceAll s pat rep =
          s.take i ++ rep ++ replaceAll (s.drop (i + pat.length)) pat rep) ∧
    (∀ (s pat rep : List Char), pat ≠ [] → findSub pat s = none →
        replaceAll s pat rep = s) ∧
    (∀ (file content s r : List Char) (bs : List (List Char × List Char)),
        containsSub content s = true →
        applyBlocks file content ((s, r) :: bs) =
          applyBlocks file (replaceAll content s r) bs) ∧
    applySearchReplace diskA (str "f\n<<<<<<< SEARCH\na\n=======\nb\n>>>>>>> REPLACE") =
      (PatchOut.ok (appliedMsg 1 (str "f")),
       diskWrite diskA (str "f") (str "b b b"), [(str "f", str "b b b")]) ∧
    applySearchReplace diskB (str "f\n<<<<<<< SEARCH\nab\n=======\nxy\n>>>>>>> REPLACE") =
      (PatchOut.ok (appliedMsg 1 (str "f")),
       diskWrite diskB (str "f") (str "xy\ncd"), [(str "f", str "xy\ncd")]) := by
  refine ⟨?_, ?_, ?_, rfl, rfl⟩
  · intro s pat rep i hp h
    exact replaceAll_findSub_some pat rep s i hp h
  · intro s pat rep hp h
    exact replaceAll_findSub_none pat rep s hp h
  · intro file content s r bs h
    simp [applyBlocks, h]

/-- Witness for C3: the recurrence applied at `a a a` with pattern `a`
replaces at position 0 and continues on the remainder, and a found
block steps the application to the globally substituted content. -/
theorem patch_replaces_all_occurrences_witness :
    replaceAll (str "a a a") (str "a") (str "b") =
      (str "a a a").take 0 ++ str "b" ++
        replaceAll ((str "a a a").drop (0 + (str "a").length)) (str "a") (str "b") ∧
    applyBlocks (str "f") (str "a a a") [(str "a", str "b"), (str "c", str "d")] =
      applyBlocks (str "f") (replaceAll (str "a a a") (str "a") (str "b"))
        [(str "c", str "d")] := by
  constructor
  · exact patch_replaces_all_occurrences.1 (str "a a a") (str "a") (str "b") 0
      (by decide) rfl
  · exact patch_replaces_all_occurrences.2.2.1 (str "f") (str "a a a")
      (str "a") (str "b") [(str "c", str "d")] (by decide)

/-- Claim C10: the patch-block parser is claimed total (an error result,
never a panic, on every malformed argument), but an argument whose block
text ends exactly at the begin marker makes the hard-coded
`search_start + 15` slice (the marker is 14 bytes) go out of bounds and
panic before the file is even read — on any disk. -/
theorem patch_parser_panics_at_marker_end : ∀ d : Disk,
    applySearchReplace d (str "f.txt\n<<<<<<< SEARCH") = (PatchOut.panicked, d, []) :=
  fun _ => rfl

theorem innerLoop_replicate (N : Nat) :
    innerLoop toolMsg (List.replicate N (some toolMsg) ++ [some plainMsg]) =
      (N + 1, InnerOutcome.finished) := by
  induction N with
  | zero => decide
  | succ n ih =>
    rw [List.replicate_succ, List.cons_append]
    simp +decide [innerLoop, ih]

/-- Claim C1, counterexample: the inner auto-continuation loop of
`run_chat` has no maximum iteration count at all — for every candidate
bound `N` there is a model behaviour (tool calls in every message)
driving the loop past `N` iterations, so no fixed bound with a warning
exists in the code. -/
theorem inner_loop_unbounded : ¬ InnerLoopBounded := by
  intro hb
  obtain ⟨N, hN⟩ := hb
  have h1 := hN toolMsg (List.replicate (N + 1) (some toolMsg) ++ [some plainMsg])
  rw [innerLoop_replicate (N + 1)] at h1
  simp only [] at h1
  omega

/-- Claim C1 as amended: the inner auto-continuation loop executes one
iteration per assistant message containing tool invocations and returns
to awaiting user input exactly when a message contains none — with no
maximum iteration count and no warning, so a model that emits tool
calls in every message keeps the loop running for as long as it keeps
responding (`N + 1` iterations for `N + 1` tool-bearing messages, for
every `N`). -/
theorem inner_loop_runs_until_tool_free_message :
    (∀ N : Nat,
        innerLoop toolMsg (List.replicate N (some toolMsg) ++ [some plainMsg]) =
          (N + 1, InnerOutcome.finished)) ∧
    (∀ (msg : List Char) (rs : List (Option (List Char))),
        rustTrim msg ≠ [] → parseInvocations msg = [] →
        innerLoop msg rs = (0, InnerOutcome.finished)) := by
  constructor
  · exact innerLoop_replicate
  · intro msg rs h1 h2
    cases rs with
    | nil => simp [innerLoop, h1, h2]
    | cons r rs => simp [innerLoop, h1, h2]

/-- Witness for the amended C1: three tool-bearing messages give three
iterations plus the final one, and a tool-free message ends the loop at
once with no tools executed. -/
theorem inner_loop_runs_until_tool_free_message_witness :
    innerLoop toolMsg (List.replicate 2 (some toolMsg) ++ [some plainMsg]) =
      (3, InnerOutcome.finished) ∧
    innerLoop plainMsg [some toolMsg] = (0, InnerOutcome.finished) :=
  ⟨inner_loop_runs_until_tool_free_message.1 2,
   inner_loop_runs_until_tool_free_message.2 plainMsg [some toolMsg]
     (by decide) (by decide)⟩

/-- Claim C4, counterexample: the marker line's remainder is split at
the first space character (`splitn(2, ' ')`), not at the first
whitespace as claimed — on `TOOL: foo\tbar` the code produces name
`foo\tbar` with an empty fragment, not name `foo` with fragment
`bar`. -/
theorem directive_split_space_not_whitespace :
    parseInvocations (str "TOOL: foo\tbar") = [(str "foo\tbar", [])] ∧
    parseInvocations (str "TOOL: foo\tbar") ≠ [(str "foo", str "bar")] := by
  constructor
  · decide
  · decide

/-- Claim C4 as amended: a marker line's remainder splits at the first
space character (not general whitespace — a tab is part of the name)
into name and first fragment, the following lines up to the next marker
form the body verbatim, and the argument is the fragment alone when the
body is empty, the body alone when the fragment is empty (no leading
blank line), and otherwise fragment and body joined by exactly one
newline; `TOOL: foo bar` + body `baz`, `qux` gives `bar\nbaz\nqux`,
`TOOL: foo` + body `baz` gives `baz`, and in `TOOL: foo\tbar baz` the
name is `foo\tbar` with fragment `baz`. -/
theorem directive_argument_assembly :
    (∀ (name frag : List Char) (bls : List (List Char)),
        name ≠ [] → (∀ c, name.head? = some c → isWs c = false) →
        (∀ c ∈ name, c ≠ ' ') →
        frag ≠ [] → (∀ c, frag.getLast? = some c → isWs c = false) →
        (∀ b ∈ bls, isToolMarker b = false) →
        parseLines ((str "TOOL: " ++ name ++ ' ' :: frag) :: bls) =
          [(name, if intercalateNl bls = [] then frag
                  else frag ++ '\n' :: intercalateNl bls)]) ∧
    (∀ (name : List Char) (bls : List (List Char)),
        name ≠ [] → (∀ c, name.head? = some c → isWs c = false) →
        (∀ c, name.getLast? = some c → isWs c = false) →
        (∀ c ∈ name, c ≠ ' ') →
        (∀ b ∈ bls, isToolMarker b = false) →
        parseLines ((str "TOOL: " ++ name) :: bls) = [(name, intercalateNl bls)]) ∧
    parseInvocations (str "TOOL: foo bar\nbaz\nqux") =
      [(str "foo", str "bar\nbaz\nqux")] ∧
    parseInvocations (str "TOOL: foo\nbaz") = [(str "foo", str "baz")] ∧
    parseInvocations (str "TOOL: foo\tbar baz") = [(str "foo\tbar", str "baz")] :=
  ⟨parseLines_marker_frag, parseLines_marker_nofrag, by decide, by decide, by decide⟩

/-- Witness for the amended C4: the assembly rule applied at a concrete
invocation whose name contains a tab (so the split really is at the
first space, not the first whitespace) with one body line, and at an
invocation with no fragment. -/
theorem directive_argument_assembly_witness :
    parseLines [str "TOOL: foo\tbar x", str "b1"] =
      [(str "foo\tbar", if intercalateNl [str "b1"] = [] then str "x"
                        else str "x" ++ '\n' :: intercalateNl [str "b1"])] ∧
    parseLines [str "TOOL: run", str "b1"] =
      [(str "run", intercalateNl [str "b1"])] := by
  constructor
  · exact directive_argument_assembly.1 (str "foo\tbar") (str "x") [str "b1"]
      (by decide)
      (fun c hc => by
        rw [show (str "foo\tbar").head? = some 'f' from rfl] at hc
        injection hc with h
        rw [← h]
        decide)
      (by decide)
      (by decide)
      (fun c hc => by
        rw [show (str "x").getLast? = some 'x' from rfl] at hc
        injection hc with h
        rw [← h]
        decide)
      (by decide)
  · exact directive_argument_assembly.2.1 (str "run") [str "b1"]
      (by decide)
      (fun c hc => by
        rw [show (str "run").head? = some 'r' from rfl] at hc
        injection hc with h
        rw [← h]
        decide)
      (fun c hc => by
        rw [show (str "run").getLast? = some 'n' from rfl] at hc
        injection hc with h
        rw [← h]
        decide)
      (by decide) (by decide)

/-- Claim C5: the command-result envelope is exactly the `EXIT_CODE`
line (with `-1` when the status is unavailable), then a `stdout:`
section only when stdout is nonempty, then a `stderr:` section preceded
by a blank line only when stdout was also present, and the fixed
no-output text when both streams are empty; stdout-only `hello` at exit
0 yields exactly `EXIT_CODE:0\nstdout:\nhello`. -/
theorem command_envelope_exact :
    commandEnvelope (some 0) (str "hello") [] = str "EXIT_CODE:0\nstdout:\nhello" ∧
    commandEnvelope (some 0) [] [] =
      str "EXIT_CODE:0\nCommand executed successfully (no output)" ∧
    (∀ out err : List Char,
        commandEnvelope none out err = commandEnvelope (some (-1)) out err) ∧
    (∀ (c : Int) (out : List Char), out ≠ [] →
        commandEnvelope (some c) out [] =
          str "EXIT_CODE:" ++ (toString c).data ++ str "\n" ++ str "stdout:\n" ++ out) ∧
    (∀ (c : Int) (err : List Char), err ≠ [] →
        commandEnvelope (some c) [] err =
          str "EXIT_CODE:" ++ (toString c).data ++ str "\n" ++ str "stderr:\n" ++ err) ∧
    (∀ (c : Int) (out err : List Char), out ≠ [] → err ≠ [] →
        commandEnvelope (some c) out err =
          str "EXIT_CODE:" ++ (toString c).data ++ str "\n" ++ str "stdout:\n" ++ out ++
            str "\n\n" ++ str "stderr:\n" ++ err) := by
  refine ⟨rfl, rfl, fun out err => rfl, ?_, ?_, ?_⟩
  · intro c out h
    simp [commandEnvelope, h, List.append_assoc]
  · intro c err h
    simp [commandEnvelope, h, List.append_assoc]
  · intro c out err h1 h2
    simp [commandEnvelope, h1, h2, List.append_assoc]

/-- Witness for C5: the three general envelope shapes at exit code 7
with streams `x` and `y`. -/
theorem command_envelope_exact_witness :
    commandEnvelope (some 7) (str "x") [] =
      str "EXIT_CODE:" ++ (toString (7 : Int)).data ++ str "\n" ++ str "stdout:\n" ++
        str "x" ∧
    commandEnvelope (some 7) [] (str "y") =
      str "EXIT_CODE:" ++ (toString (7 : Int)).data ++ str "\n" ++ str "stderr:\n" ++
        str "y" ∧
    commandEnvelope (some 7) (str "x") (str "y") =
      str "EXIT_CODE:" ++ (toString (7 : Int)).data ++ str "\n" ++ str "stdout:\n" ++
        str "x" ++ str "\n\n" ++ str "stderr:\n" ++ str "y" :=
  ⟨command_envelope_exact.2.2.2.1 7 (str "x") (by decide),
   command_envelope_exact.2.2.2.2.1 7 (str "y") (by decide),
   command_envelope_exact.2.2.2.2.2 7 (str "x") (str "y") (by decide) (by decide)⟩

theorem handleStream_cancel (pre : List StreamEvent) (post : List StreamEvent)
    (acc : Option Msg) (h : ∀ e ∈ pre, e.isChunk = true) :
    handleStream (pre ++ StreamEvent.ctrlC :: post) acc = StreamResult.interrupted := by
  induction pre generalizing acc with
  | nil => rfl
  | cons e pre ih =>
    have he := h e (by simp)
    cases e with
    | thinkingChunk s => exact ih _ (fun x hx => h x (by simp [hx]))
    | contentChunk s => exact ih _ (fun x hx => h x (by simp [hx]))
    | messageChunk i c => exact ih _ (fun x hx => h x (by simp [hx]))
    | chunkError => simp [StreamEvent.isChunk] at he
    | ctrlC => simp [StreamEvent.isChunk] at he

/-- Claim C6: when the cancellation signal wins the race against the
next chunk, the stream is abandoned with the interrupted result and the
thread pointer is left unchanged — even if a final message chunk had
already arrived — and the thread pointer moves only on a fully received,
completed final assistant message. -/
theorem stream_cancel_keeps_thread_pointer :
    (∀ (pre post : List StreamEvent) (acc : Option Msg),
        (∀ e ∈ pre, e.isChunk = true) →
        handleStream (pre ++ StreamEvent.ctrlC :: post) acc =
          StreamResult.interrupted) ∧
    (∀ (pre post : List StreamEvent) (acc : Option Msg) (p : Option Int),
        (∀ e ∈ pre, e.isChunk = true) →
        updateParent p (handleStream (pre ++ StreamEvent.ctrlC :: post) acc) = p) ∧
    (∀ (evs : List StreamEvent) (acc : Option Msg) (p : Option Int),
        updateParent p (handleStream evs acc) ≠ p →
        ∃ m, handleStream evs acc = StreamResult.completed (some m) ∧
          updateParent p (handleStream evs acc) = m.id) := by
  refine ⟨handleStream_cancel, ?_, ?_⟩
  · intro pre post acc p h
    rw [handleStream_cancel pre post acc h]
    rfl
  · intro evs acc p h
    cases hres : handleStream evs acc with
    | completed om =>
      cases om with
      | some m => exact ⟨m, rfl, by simp [updateParent]⟩
      | none => rw [hres] at h; simp [updateParent] at h
    | interrupted => rw [hres] at h; simp [updateParent] at h
    | failed => rw [hres] at h; simp [updateParent] at h

/-- Witness for C6: a cancellation arriving after a content chunk and
even after a received final-message chunk still yields the interrupted
result and leaves the thread pointer at its old value. -/
theorem stream_cancel_keeps_thread_pointer_witness :
    handleStream
        [StreamEvent.contentChunk (str "hi"),
         StreamEvent.messageChunk (some 5) (str "partial"),
         StreamEvent.ctrlC] none = StreamResult.interrupted ∧
    updateParent (some 3)
        (handleStream
          [StreamEvent.contentChunk (str "hi"),
           StreamEvent.messageChunk (some 5) (str "partial"),
           StreamEvent.ctrlC] none) = some 3 :=
  ⟨stream_cancel_keeps_thread_pointer.1
      [StreamEvent.contentChunk (str "hi"),
       StreamEvent.messageChunk (some 5) (str "partial")] [] none (by decide),
   stream_cancel_keeps_thread_pointer.2.1
      [StreamEvent.contentChunk (str "hi"),
       StreamEvent.messageChunk (some 5) (str "partial")] [] none (some 3)
      (by decide)⟩

/-- Claim C7: `execute_tool` fails with the unknown-tool error exactly
when the name is not a registry key and otherwise returns the handler's
result unchanged; the dispatch loop produces exactly one result text per
invocation, in parsed order, recording success and failure both as
labeled text — a handler failure becomes failure text, never a fatal
error. -/
theorem dispatch_labels_failures :
    (∀ (handlers : List Char → List Char → Except (List Char) (List Char))
        (name arg : List Char), name ∉ toolNames →
        execute_tool handlers name arg =
          Except.error (str "Unknown tool: " ++ name)) ∧
    (∀ (handlers : List Char → List Char → Except (List Char) (List Char))
        (name arg : List Char), name ∈ toolNames →
        execute_tool handlers name arg = handlers name arg) ∧
    (∀ (handlers : List Char → List Char → Except (List Char) (List Char))
        (invs : List (List Char × List Char)),
        (collectResults handlers invs).length = invs.length) ∧
    (∀ (handlers : List Char → List Char → Except (List Char) (List Char))
        (invs : List (List Char × List Char)) (i : Nat)
        (h : i < invs.length) (h2 : i < (collectResults handlers invs).length),
        (collectResults handlers invs).get ⟨i, h2⟩ =
          toolResultText handlers (invs.get ⟨i, h⟩)) ∧
    (∀ (handlers : List Char → List Char → Except (List Char) (List Char))
        (inv : List Char × List Char) (out : List Char),
        execute_tool handlers inv.1 inv.2 = Except.ok out →
        toolResultText handlers inv =
          str "TOOL RESULT for " ++ inv.1 ++ str ":\n" ++ out) ∧
    (∀ (handlers : List Char → List Char → Except (List Char) (List Char))
        (inv : List Char × List Char) (e : List Char),
        execute_tool handlers inv.1 inv.2 = Except.error e →
        toolResultText handlers inv =
          str "TOOL " ++ inv.1 ++ str " failed: " ++ e) := by
  refine ⟨?_, ?_, ?_, ?_, ?_, ?_⟩
  · intro handlers name arg h
    simp [execute_tool, h]
  · intro handlers name arg h
    simp [execute_tool, h]
  · intro handlers invs
    simp [collectResults]
  · intro handlers invs i h h2
    simp [collectResults]
  · intro handlers inv out h
    simp [toolResultText, h]
  · intro handlers inv e h
    simp [toolResultText, h]

/-- Witness for C7: with a handler that always fails with `boom`, an
unregistered name gets the unknown-tool error, a registered name gets
the handler's result, and the dispatch loop turns the failure into
labeled text with one result for the one invocation. -/
theorem dispatch_labels_failures_witness :
    execute_tool (fun _ _ => Except.error (str "boom")) (str "bogus") [] =
      Except.error (str "Unknown tool: " ++ str "bogus") ∧
    execute_tool (fun _ _ => Except.error (str "boom")) (str "read_file") (str "p") =
      Except.error (str "boom") ∧
    (collectResults (fun _ _ => Except.error (str "boom"))
        [(str "read_file", str "p")]).length = 1 ∧
    toolResultText (fun _ _ => Except.error (str "boom")) (str "read_file", str "p") =
      str "TOOL " ++ str "read_file" ++ str " failed: " ++ str "boom" :=
  ⟨dispatch_labels_failures.1 (fun _ _ => Except.error (str "boom"))
      (str "bogus") [] (by decide),
   dispatch_labels_failures.2.1 (fun _ _ => Except.error (str "boom"))
      (str "read_file") (str "p") (by decide),
   dispatch_labels_failures.2.2.1 (fun _ _ => Except.error (str "boom"))
      [(str "read_file", str "p")],
   dispatch_labels_failures.2.2.2.2.2 (fun _ _ => Except.error (str "boom"))
      (str "read_file", str "p") (str "boom") rfl⟩

/-- Claim C8, counterexample: a 2xx response whose body contains the
blocking marker `captcha` is not treated as blocked by the code — with
no extractable results it yields the generic unrecognized-structure
message, because the blocking-marker check only runs on non-2xx
statuses. -/
theorem search_block_on_2xx_not_blocked :
    handleSearchResponse (fun _ => []) 200 (str "captcha") =
      Except.ok (str "No results could be extracted from the search page. The page structure may have changed.") ∧
    handleSearchResponse (fun _ => []) 200 (str "captcha") ≠
      Except.error SearchError.blocked := by
  constructor
  · rfl
  · intro h
    rw [show handleSearchResponse (fun _ => []) 200 (str "captcha") =
        Except.ok (str "No results could be extracted from the search page. The page structure may have changed.") from rfl] at h
    exact Except.noConfusion h

/-- Claim C8 as amended: only a non-2xx response whose body contains a
blocking marker (captcha / unusual-traffic / blocked language, checked
case-insensitively) fails with the specific retryable-block error
instead of the generic HTTP error; a 2xx response never fails at all —
with no extractable results it yields a no-results or
unrecognized-structure message. -/
theorem search_block_only_non2xx :
    (∀ (extract : List Char → List (List Char)) (status : Nat) (html : List Char),
        ¬(200 ≤ status ∧ status < 300) →
        (containsSub (html.map Char.toLower) (str "captcha") = true ∨
         containsSub (html.map Char.toLower) (str "unusual traffic") = true ∨
         containsSub (html.map Char.toLower) (str "blocked") = true) →
        handleSearchResponse extract status html =
          Except.error SearchError.blocked) ∧
    (∀ (extract : List Char → List (List Char)) (status : Nat) (html : List Char),
        200 ≤ status → status < 300 →
        ∀ e, handleSearchResponse extract status html ≠ Except.error e) := by
  constructor
  · intro extract status html h1 h2
    rcases h2 with h | h | h <;>
      simp [handleSearchResponse, h1, h]
  · intro extract status html h1 h2 e
    by_cases hres : extract html = []
    · simp only [handleSearchResponse, if_pos (And.intro h1 h2), hres, if_pos rfl]
      intro h
      split at h <;> (try split at h) <;> exact Except.noConfusion h
    · simp [handleSearchResponse, h1, h2, hres]

/-- Witness for the amended C8: a 403 whose body contains `CAPTCHA`
(case-insensitively matched) fails with the retryable-block error, and
a 200 with the same body does not fail. -/
theorem search_block_only_non2xx_witness :
    handleSearchResponse (fun _ => []) 403 (str "CAPTCHA required") =
      Except.error SearchError.blocked ∧
    handleSearchResponse (fun _ => []) 200 (str "CAPTCHA required") ≠
      Except.error SearchError.blocked :=
  ⟨search_block_only_non2xx.1 (fun _ => []) 403 (str "CAPTCHA required")
      (by omega) (Or.inl (by decide)),
   search_block_only_non2xx.2 (fun _ => []) 200 (str "CAPTCHA required")
      (by omega) (by omega) SearchError.blocked⟩

/-- Claim C9: the tool-directive parser is a pure function of the
message text — equal texts parse to equal invocation lists — and a
message none of whose lines is a marker line parses to the empty list,
which the turn controller treats as a final answer: zero tool
executions and an immediate return to awaiting input. -/
theorem parse_deterministic_no_marker_empty :
    (∀ t₁ t₂ : List Char, t₁ = t₂ → parseInvocations t₁ = parseInvocations t₂) ∧
    (∀ content : List Char,
        (∀ l ∈ rustLines content, isToolMarker l = false) →
        parseInvocations content = []) ∧
    (∀ (msg : List Char) (rs : List (Option (List Char))),
        rustTrim msg ≠ [] → parseInvocations msg = [] →
        innerLoop msg rs = (0, InnerOutcome.finished)) ∧
    (∀ handlers : List Char → List Char → Except (List Char) (List Char),
        collectResults handlers [] = []) := by
  refine ⟨fun t₁ t₂ h => congrArg _ h, ?_, ?_, fun handlers => rfl⟩
  · intro content h
    exact parseLines_no_marker _ h
  · intro msg rs h1 h2
    cases rs with
    | nil => simp [innerLoop, h1, h2]
    | cons r rs => simp [innerLoop, h1, h2]

/-- Witness for C9: a plain text with no marker line parses to no
invocations and ends the turn with zero tool iterations. -/
theorem parse_deterministic_no_marker_empty_witness :
    parseInvocations (str "hello world\nsecond line") = [] ∧
    innerLoop (str "hello world\nsecond line") [some toolMsg] =
      (0, InnerOutcome.finished) :=
  ⟨parse_deterministic_no_marker_empty.2.1 (str "hello world\nsecond line")
      (by decide),
   parse_deterministic_no_marker_empty.2.2.1 (str "hello world\nsecond line")
      [some toolMsg] (by decide)
      (parse_deterministic_no_marker_empty.2.1 (str "hello world\nsecond line")
        (by decide))⟩

end DeepseekCli
